import Mathlib

/-!
Verification development for the 100-prisoners Monte Carlo simulator
(src/100prisoners.c).  The C translation unit in src/ contains the CLI
dispatch, the statistics reporter, the seeding routine, the worker fan-out
and the trial loop; the disjoint-set structure lives in the separate
header union-find/union-find.h, which is not part of src/ and is therefore
modelled from the specification (section 4.1 of spec.md).
-/

/-- Constant from src/100prisoners.c line 40. -/
def DEFAULT_NUM_PRISONERS : ℕ := 100

/-- Constant from src/100prisoners.c line 41 (the cycle bound). -/
def MAX_TRIALS : ℕ := 50

/-- C stdlib EXIT_SUCCESS. -/
def EXIT_SUCCESS : ℕ := 0

/-- C stdlib EXIT_FAILURE. -/
def EXIT_FAILURE : ℕ := 1

/-- Modelled from the spec: the two-valued trial outcome (the enum found_t
is declared in the missing header 100prisoners.h; per spec section 3 an
outcome is Found or NotFound, and per section 4.3 a Found outcome counts
as 1 when summed). -/
inductive found_t where
  | NOT_FOUND : found_t
  | FOUND : found_t
deriving DecidableEq

/-- Modelled from the spec: the disjoint-set structure of
union-find/union-find.h (missing from src/), spec section 3: a parent
sequence (self-parent marks a root) and a size sequence (authoritative at
roots), over nElems elements.  The two sequences are modelled as total
functions on indices. -/
structure set_union where
  nElems : ℕ
  parent : ℕ → ℕ
  size : ℕ → ℕ

/-- Pointwise update of an index-to-value function (a C array store). -/
def upd (f : ℕ → ℕ) (a v : ℕ) : ℕ → ℕ := fun x => if x = a then v else f x

/-- Modelled from the spec: init(n) allocates n singleton partitions with
parent i = i and size i = 1 (spec section 4.1). -/
def set_union_init (n : ℕ) : set_union :=
  ⟨n, fun i => i, fun _ => 1⟩

/-- Fuel-bounded walk along parent links until a self-parent is reached.
The C walk has no explicit bound; in every reachable state the chain is
shorter than the number of elements, which is the fuel used by find. -/
def findAux (parent : ℕ → ℕ) : ℕ → ℕ → ℕ
  | 0, i => i
  | fuel + 1, i => if parent i = i then i else findAux parent fuel (parent i)

/-- Modelled from the spec: find(i) returns the root of the partition
containing i by following parent links until a self-parent is reached,
without path compression (spec section 4.1). -/
def find (s : set_union) (i : ℕ) : ℕ :=
  findAux s.parent s.nElems i

/-- Modelled from the spec: union(a, b) sets parent[find(a)] = find(b)
(a directed union, no balancing and no same-root test) and then
accumulates size[find(b) after] += size[find(a) before]
(spec section 4.1). -/
def union_set (s : set_union) (a b : ℕ) : set_union :=
  ⟨s.nElems,
   upd s.parent (find s a) (find s b),
   upd s.size
     (find ⟨s.nElems, upd s.parent (find s a) (find s b), s.size⟩ b)
     (s.size (find ⟨s.nElems, upd s.parent (find s a) (find s b), s.size⟩ b)
       + s.size (find s a))⟩

/-- The loop of randomizeArray (src/100prisoners.c lines 125-134), with the
bound b and the disjoint-set state explicit.  The first ℕ argument is
currentIndex, the last is the position in the stream of raw random() draws;
the result pairs the outcome with the next unread stream position.  Each
iteration draws randomIndex = draws k mod (currentIndex+1), unions
currentIndex with it, and reports NOT_FOUND as soon as the size of
currentIndex's partition exceeds b. -/
def trialLoopT (b : ℕ) (draws : ℕ → ℕ) : ℕ → set_union → ℕ → found_t × ℕ
  | 0, _, k => (found_t.FOUND, k)
  | c + 1, s, k =>
    if b < (union_set s (c + 1) (draws k % (c + 2))).size
             (find (union_set s (c + 1) (draws k % (c + 2))) (c + 1)) then
      (found_t.NOT_FOUND, k + 1)
    else
      trialLoopT b draws c (union_set s (c + 1) (draws k % (c + 2))) (k + 1)

/-- randomizeArray (src/100prisoners.c lines 120-136): sets up the
disjoint-set structure with DEFAULT_NUM_PRISONERS elements (line 124,
regardless of the size parameter), then runs the loop from size-1 down,
checking against MAX_TRIALS. -/
def randomizeArray (size : ℕ) (draws : ℕ → ℕ) : found_t :=
  (trialLoopT MAX_TRIALS draws (size - 1) (set_union_init DEFAULT_NUM_PRISONERS) 0).1

/-- runSimulation (src/100prisoners.c lines 100-102): one trial, always
invoked as randomizeArray with DEFAULT_NUM_PRISONERS. -/
def runSimulation (draws : ℕ → ℕ) : found_t :=
  randomizeArray DEFAULT_NUM_PRISONERS draws

/-- runSimulation with the random-stream position threaded through, as used
by the trial aggregator (the C code advances the global random() stream). -/
def runSimulationT (draws : ℕ → ℕ) (k : ℕ) : found_t × ℕ :=
  trialLoopT MAX_TRIALS draws (DEFAULT_NUM_PRISONERS - 1)
    (set_union_init DEFAULT_NUM_PRISONERS) k

/-- Modelled from the spec: the single-trial simulator contract
runTrial(n, cycleBound) of spec section 4.2.  It is the loop of
randomizeArray with the two compile-time constants DEFAULT_NUM_PRISONERS
and MAX_TRIALS generalized to the parameters n and b; the code itself only
ever instantiates it at n = 100, b = 50 (see runSimulation). -/
def runTrial (n b : ℕ) (draws : ℕ → ℕ) : found_t :=
  (trialLoopT b draws (n - 1) (set_union_init n) 0).1

/-- Number of random draws consumed (equivalently, unions performed) by
runTrial n b on the given stream. -/
def runTrialDraws (n b : ℕ) (draws : ℕ → ℕ) : ℕ :=
  (trialLoopT b draws (n - 1) (set_union_init n) 0).2

/-- The sequence of partition sizes inspected by the loop of
randomizeArray: entry m is size[find(currentIndex)] immediately after the
union performed at the m-th iteration (no early exit: the list always has
one entry per potential iteration). -/
def checkList (draws : ℕ → ℕ) : ℕ → set_union → ℕ → List ℕ
  | 0, _, _ => []
  | c + 1, s, k =>
    (union_set s (c + 1) (draws k % (c + 2))).size
        (find (union_set s (c + 1) (draws k % (c + 2))) (c + 1)) ::
      checkList draws c (union_set s (c + 1) (draws k % (c + 2))) (k + 1)

/-- The size inspected immediately after the union at iteration m of a
runTrial n run (iteration m has currentIndex = n-1-m). -/
def checkVal (n : ℕ) (draws : ℕ → ℕ) (m : ℕ) : ℕ :=
  (checkList draws (n - 1) (set_union_init n) 0).getD m 0

/-- The accumulation loop of simulateAndStats (src/100prisoners.c lines
91-93): runs the given number of trials, threading the random-stream
position, and sums 1 for each FOUND outcome. -/
def simLoop (draws : ℕ → ℕ) : ℕ → ℕ → ℕ × ℕ
  | 0, k => (0, k)
  | t + 1, k =>
    ((if (runSimulationT draws k).1 = found_t.FOUND then 1 else 0)
        + (simLoop draws t (runSimulationT draws k).2).1,
     (simLoop draws t (runSimulationT draws k).2).2)

/-- The success count produced by one worker running the given number of
simulations on its own seeded stream (splitSimulation,
src/100prisoners.c lines 212-235, which calls simulateAndStats). -/
def splitSimulation (numSimulations : ℕ) (stream : ℕ → ℕ) : ℕ :=
  (simLoop stream numSimulations 0).1

/-- State of the system entropy source /dev/urandom as seen by seed()
(src/100prisoners.c lines 138-151): the file may fail to open, may open
but yield no data, or may yield a seed value. -/
inductive EntropySource where
  | unavailable : EntropySource
  | unreadable : EntropySource
  | value : ℕ → EntropySource

/-- seed (src/100prisoners.c lines 138-151): reads one unsigned int from
/dev/urandom and passes it to srandom; if the file cannot be opened or
read, the process exits with EXIT_FAILURE at once (no retry, no fallback
seed). -/
def seed : EntropySource → Except ℕ ℕ
  | EntropySource.unavailable => Except.error EXIT_FAILURE
  | EntropySource.unreadable => Except.error EXIT_FAILURE
  | EntropySource.value v => Except.ok v

/-- simulateAndStats (src/100prisoners.c lines 86-98): seeds once from the
entropy source, then runs n trials over the stream determined by the seed
value (rng v models the srandom(v)-determined random() stream); an
entropy failure aborts the process with the failure exit code before any
trial runs. -/
def simulateAndStats (env : EntropySource) (rng : ℕ → ℕ → ℕ) (n : ℕ) : Except ℕ ℕ :=
  match seed env with
  | Except.error c => Except.error c
  | Except.ok v => Except.ok (simLoop (rng v) n 0).1

/-- simulateAndStatsWithThreads (src/100prisoners.c lines 153-178): each of
numThreads workers is given n / numThreads simulations (line 163, integer
division) on its own seeded stream and writes its success count into its
own slot; the parent joins all workers, sums the slots, and reports
numSimulation = (n / numThreads) * numThreads (line 176).  The result
pairs the summed successes with the reported trial count. -/
def simulateAndStatsWithThreads (n numThreads : ℕ) (streams : ℕ → ℕ → ℕ) : ℕ × ℕ :=
  (∑ i ∈ Finset.range numThreads, splitSimulation (n / numThreads) (streams i),
   (n / numThreads) * numThreads)

/-- simulateAndStatsWithProcesses (src/100prisoners.c lines 180-210):
identical splitting logic to the threaded version, with the per-worker
slots in shared memory; each child runs n / numProcesses simulations
(line 194) and the parent reports (n / numProcesses) * numProcesses
(line 208). -/
def simulateAndStatsWithProcesses (n numProcesses : ℕ) (streams : ℕ → ℕ → ℕ) : ℕ × ℕ :=
  (∑ i ∈ Finset.range numProcesses, splitSimulation (n / numProcesses) (streams i),
   (n / numProcesses) * numProcesses)

/-- The mean computed by printStats (src/100prisoners.c line 105):
sum / (n + 0.0), modelled over ℚ. -/
def printStats_mean (sum n : ℕ) : ℚ :=
  (sum : ℚ) / (n : ℚ)

/-- The variance computed by printStats (src/100prisoners.c line 110):
(sum * (1 - mean)) / (n - 1), modelled over ℚ. -/
def printStats_var (sum n : ℕ) : ℚ :=
  ((sum : ℚ) * (1 - printStats_mean sum n)) / ((n : ℚ) - 1)

/-- Observable outcome of main: the exit status it returns, whether the
usage text was printed, and whether a simulation path was entered. -/
structure MainResult where
  exitCode : ℕ
  usagePrinted : Bool
  simAttempted : Bool
deriving DecidableEq

/-- main (src/100prisoners.c lines 44-73): dispatches on argc and on the
first character of argv[2] (the expression *argv[2]); every path returns
EXIT_SUCCESS.  The argument list includes the program name, so argc is the
list length. -/
def mainProgram (args : List String) : MainResult :=
  if args.length = 3 then
    if (args.getD 2 "").data.head? = some 's' then
      ⟨EXIT_SUCCESS, false, true⟩
    else
      ⟨EXIT_SUCCESS, true, false⟩
  else if args.length = 4 then
    if (args.getD 2 "").data.head? = some 'p' then
      ⟨EXIT_SUCCESS, false, true⟩
    else if (args.getD 2 "").data.head? = some 't' then
      ⟨EXIT_SUCCESS, false, true⟩
    else
      ⟨EXIT_SUCCESS, true, false⟩
  else
    ⟨EXIT_SUCCESS, true, false⟩

/-- The three accepted argument forms as written in the claim: a third
argument that is exactly "s", or a fourth argument present with the third
exactly "t" or exactly "p". -/
def acceptedForm : List String → Bool
  | [_, _, m] => m == "s"
  | [_, _, m, _] => m == "t" || m == "p"
  | _ => false

/-- The condition under which main actually enters a simulation path: the
dispatch tests only argc and the first character of argv[2]. -/
def dispatchAccepts (args : List String) : Prop :=
  (args.length = 3 ∧ (args.getD 2 "").data.head? = some 's') ∨
    (args.length = 4 ∧
      ((args.getD 2 "").data.head? = some 'p' ∨
        (args.getD 2 "").data.head? = some 't'))

instance (args : List String) : Decidable (dispatchAccepts args) := by
  unfold dispatchAccepts
  infer_instance

/-- Invariant of the trial loop over the modelled disjoint-set structure,
at the point where currentIndex = c is next to be processed: every
still-active index (an index that can still appear as a union argument,
i.e. one that is at most c) is a direct root, carries a positive size, and
the sizes of the active roots sum to at most the number of elements. -/
def LoopInv (n c : ℕ) (s : set_union) : Prop :=
  s.nElems = n ∧
    (∀ i, i ≤ c → s.parent i = i) ∧
    (∀ i, i ≤ c → 1 ≤ s.size i) ∧
    (∑ i ∈ Finset.range (c + 1), s.size i) ≤ n

/-! Basic facts about the array-store model and the modelled find. -/

theorem upd_same (f : ℕ → ℕ) (a v : ℕ) : upd f a v a = v := by
  simp [upd]

theorem upd_ne (f : ℕ → ℕ) (a v x : ℕ) (h : x ≠ a) : upd f a v x = f x := by
  simp [upd, h]

theorem upd_self (f : ℕ → ℕ) (a : ℕ) : upd f a (f a) = f := by
  funext x
  by_cases h : x = a
  · subst h; simp [upd]
  · simp [upd, h]

theorem find_of_parent_self (s : set_union) (i : ℕ)
    (h : s.parent i = i) (hn : 0 < s.nElems) : find s i = i := by
  unfold find
  obtain ⟨m, hm⟩ : ∃ m, s.nElems = m + 1 := ⟨s.nElems - 1, by omega⟩
  rw [hm]
  simp [findAux, h]

theorem find_of_parent_step (s : set_union) (i j : ℕ)
    (h1 : s.parent i = j) (hij : j ≠ i) (h2 : s.parent j = j)
    (hn : 2 ≤ s.nElems) : find s i = j := by
  unfold find
  obtain ⟨m, hm⟩ : ∃ m, s.nElems = m + 2 := ⟨s.nElems - 2, by omega⟩
  rw [hm]
  have hne : s.parent i ≠ i := by rw [h1]; exact hij
  simp only [findAux]
  rw [if_neg hne, h1, if_pos h2]

theorem sum_range_split (f : ℕ → ℕ) (a m : ℕ) (ha : a < m) :
    ∑ i ∈ Finset.range m, f i = f a + ∑ i ∈ (Finset.range m).erase a, f i :=
  (Finset.add_sum_erase _ f (Finset.mem_range.2 ha)).symm

theorem sum_range_upd (f : ℕ → ℕ) (a v m : ℕ) (ha : a < m) :
    ∑ i ∈ Finset.range m, upd f a v i = v + ∑ i ∈ (Finset.range m).erase a, f i := by
  rw [← Finset.add_sum_erase _ (upd f a v) (Finset.mem_range.2 ha), upd_same]
  congr 1
  exact Finset.sum_congr rfl fun i hi => upd_ne _ _ _ _ (Finset.ne_of_mem_erase hi)

theorem sum_range_upd_out (f : ℕ → ℕ) (a v m : ℕ) (ha : m ≤ a) :
    ∑ i ∈ Finset.range m, upd f a v i = ∑ i ∈ Finset.range m, f i :=
  Finset.sum_congr rfl fun i hi =>
    upd_ne _ _ _ _ (by have := Finset.mem_range.1 hi; omega)

/-! Shape of a union whose two arguments are currently direct roots; these
are the only unions the trial loop ever performs (the loop invariant below
shows every active index is a direct root). -/

theorem union_set_self (s : set_union) (a : ℕ)
    (hpa : s.parent a = a) (h0 : 0 < s.nElems) :
    union_set s a a = ⟨s.nElems, s.parent, upd s.size a (s.size a + s.size a)⟩ := by
  have hfa : find s a = a := find_of_parent_self s a hpa h0
  have hparent : upd s.parent a a = s.parent := by
    funext x
    by_cases hx : x = a
    · subst hx; rw [upd_same, hpa]
    · rw [upd_ne _ _ _ _ hx]
  unfold union_set
  rw [hfa, hparent]
  have hEta : (⟨s.nElems, s.parent, s.size⟩ : set_union) = s := rfl
  rw [hEta, hfa]

theorem union_set_ne (s : set_union) (a r : ℕ) (hne : r ≠ a)
    (hpa : s.parent a = a) (hpr : s.parent r = r) (h0 : 0 < s.nElems) :
    union_set s a r = ⟨s.nElems, upd s.parent a r, upd s.size r (s.size r + s.size a)⟩ := by
  have hfa : find s a = a := find_of_parent_self s a hpa h0
  have hfr : find s r = r := find_of_parent_self s r hpr h0
  unfold union_set
  rw [hfa, hfr]
  have hfr2 : find (⟨s.nElems, upd s.parent a r, s.size⟩ : set_union) r = r := by
    refine find_of_parent_self _ r ?_ h0
    show upd s.parent a r r = r
    rw [upd_ne _ _ _ _ hne, hpr]
  rw [hfr2]

/-! The core step lemma: one iteration of the trial loop, performed from a
state satisfying the loop invariant, inspects a partition size that is at
least 2 and at most 2*(n-1), and re-establishes the invariant for the next
iteration. -/

theorem union_step (n c : ℕ) (s : set_union) (r : ℕ)
    (hInv : LoopInv n (c + 1) s) (hr : r ≤ c + 1) (hcn : c + 1 < n) :
    2 ≤ (union_set s (c + 1) r).size (find (union_set s (c + 1) r) (c + 1)) ∧
      (union_set s (c + 1) r).size (find (union_set s (c + 1) r) (c + 1)) ≤ 2 * (n - 1) ∧
      LoopInv n c (union_set s (c + 1) r) := by
  obtain ⟨hne, hpar, hsz, hsum⟩ := hInv
  have h0n : 0 < s.nElems := by omega
  have h2n : 2 ≤ s.nElems := by omega
  have hp : s.parent (c + 1) = c + 1 := hpar (c + 1) le_rfl
  have hpr : s.parent r = r := hpar r hr
  have hsum2 : (∑ i ∈ Finset.range (c + 2), s.size i)
      = s.size (c + 1) + ∑ i ∈ Finset.range (c + 1), s.size i := by
    rw [Finset.sum_range_succ]; omega
  have hsumA : s.size (c + 1) + (∑ i ∈ Finset.range (c + 1), s.size i) ≤ n := by
    rw [← hsum2]; exact hsum
  have hones : c + 1 ≤ ∑ i ∈ Finset.range (c + 1), s.size i := by
    calc c + 1 = ∑ _i ∈ Finset.range (c + 1), 1 := by simp
    _ ≤ ∑ i ∈ Finset.range (c + 1), s.size i :=
        Finset.sum_le_sum fun i hi => hsz i (by have := Finset.mem_range.1 hi; omega)
  by_cases hreq : r = c + 1
  · -- self union: randomIndex equals currentIndex, the partition doubles
    rw [hreq]
    rw [union_set_self s (c + 1) hp h0n]
    have hfind : find (⟨s.nElems, s.parent,
        upd s.size (c + 1) (s.size (c + 1) + s.size (c + 1))⟩ : set_union) (c + 1) = c + 1 :=
      find_of_parent_self _ (c + 1) hp h0n
    have hval : (⟨s.nElems, s.parent,
        upd s.size (c + 1) (s.size (c + 1) + s.size (c + 1))⟩ : set_union).size (c + 1)
        = s.size (c + 1) + s.size (c + 1) := upd_same _ _ _
    rw [hfind, hval]
    have hszc : 1 ≤ s.size (c + 1) := hsz (c + 1) le_rfl
    refine ⟨by omega, by omega, hne, ?_, ?_, ?_⟩
    · intro i hi; exact hpar i (by omega)
    · intro i hi
      show 1 ≤ upd s.size (c + 1) _ i
      rw [upd_ne _ _ _ _ (by omega)]
      exact hsz i (by omega)
    · show (∑ i ∈ Finset.range (c + 1), upd s.size (c + 1) _ i) ≤ n
      rw [sum_range_upd_out _ _ _ _ le_rfl]
      omega
  · -- distinct roots: currentIndex's root is linked below randomIndex's root
    have hrc : r ≤ c := by omega
    rw [union_set_ne s (c + 1) r hreq hp hpr h0n]
    have hfind : find (⟨s.nElems, upd s.parent (c + 1) r,
        upd s.size r (s.size r + s.size (c + 1))⟩ : set_union) (c + 1) = r := by
      refine find_of_parent_step _ (c + 1) r ?_ hreq ?_ h2n
      · exact upd_same _ _ _
      · show upd s.parent (c + 1) r r = r
        rw [upd_ne _ _ _ _ hreq, hpr]
    have hval : (⟨s.nElems, upd s.parent (c + 1) r,
        upd s.size r (s.size r + s.size (c + 1))⟩ : set_union).size r
        = s.size r + s.size (c + 1) := upd_same _ _ _
    rw [hfind, hval]
    have hszc : 1 ≤ s.size (c + 1) := hsz (c + 1) le_rfl
    have hszr : 1 ≤ s.size r := hsz r hr
    have hsingle : s.size r ≤ ∑ i ∈ Finset.range (c + 1), s.size i :=
      Finset.single_le_sum (fun i _ => Nat.zero_le _) (Finset.mem_range.2 (by omega))
    refine ⟨by omega, by omega, hne, ?_, ?_, ?_⟩
    · intro i hi
      show upd s.parent (c + 1) r i = i
      rw [upd_ne _ _ _ _ (by omega)]
      exact hpar i (by omega)
    · intro i hi
      show 1 ≤ upd s.size r (s.size r + s.size (c + 1)) i
      by_cases hir : i = r
      · subst hir; rw [upd_same]; omega
      · rw [upd_ne _ _ _ _ hir]; exact hsz i (by omega)
    · show (∑ i ∈ Finset.range (c + 1), upd s.size r (s.size r + s.size (c + 1)) i) ≤ n
      rw [sum_range_upd _ _ _ _ (by omega)]
      have hsplit := sum_range_split s.size r (c + 1) (by omega)
      omega

theorem LoopInv_init (n : ℕ) (hn : 0 < n) :
    LoopInv n (n - 1) (set_union_init n) := by
  refine ⟨rfl, fun i _ => rfl, fun i _ => le_rfl, ?_⟩
  have h1 : n - 1 + 1 = n := by omega
  rw [h1]
  simp [set_union_init]

theorem trialLoopT_succ (b : ℕ) (draws : ℕ → ℕ) (c : ℕ) (s : set_union) (k : ℕ) :
    trialLoopT b draws (c + 1) s k =
      if b < (union_set s (c + 1) (draws k % (c + 2))).size
               (find (union_set s (c + 1) (draws k % (c + 2))) (c + 1)) then
        (found_t.NOT_FOUND, k + 1)
      else
        trialLoopT b draws c (union_set s (c + 1) (draws k % (c + 2))) (k + 1) := rfl

theorem checkList_succ (draws : ℕ → ℕ) (c : ℕ) (s : set_union) (k : ℕ) :
    checkList draws (c + 1) s k =
      (union_set s (c + 1) (draws k % (c + 2))).size
          (find (union_set s (c + 1) (draws k % (c + 2))) (c + 1)) ::
        checkList draws c (union_set s (c + 1) (draws k % (c + 2))) (k + 1) := rfl

theorem trialLoopT_found (b n : ℕ) (draws : ℕ → ℕ) (hb : 2 * (n - 1) ≤ b) :
    ∀ (c : ℕ) (s : set_union) (k : ℕ), c < n → LoopInv n c s →
      (trialLoopT b draws c s k).1 = found_t.FOUND := by
  intro c
  induction c with
  | zero => intro s k _ _; rfl
  | succ c ih =>
    intro s k hc hInv
    have hr : draws k % (c + 2) ≤ c + 1 :=
      Nat.lt_succ_iff.1 (Nat.mod_lt _ (by omega))
    obtain ⟨_, hle, hInv2⟩ := union_step n c s (draws k % (c + 2)) hInv hr hc
    rw [trialLoopT_succ, if_neg (by omega)]
    exact ih _ (k + 1) (by omega) hInv2

theorem checkList_length (draws : ℕ → ℕ) :
    ∀ (c : ℕ) (s : set_union) (k : ℕ), (checkList draws c s k).length = c := by
  intro c
  induction c with
  | zero => intro s k; rfl
  | succ c ih => intro s k; rw [checkList_succ]; show _ + 1 = _; rw [ih]

theorem trialLoopT_found_iff (b : ℕ) (draws : ℕ → ℕ) :
    ∀ (c : ℕ) (s : set_union) (k : ℕ),
      ((trialLoopT b draws c s k).1 = found_t.FOUND ↔
        ∀ v ∈ checkList draws c s k, v ≤ b) := by
  intro c
  induction c with
  | zero => intro s k; simp [trialLoopT, checkList]
  | succ c ih =>
    intro s k
    by_cases h : b < (union_set s (c + 1) (draws k % (c + 2))).size
        (find (union_set s (c + 1) (draws k % (c + 2))) (c + 1))
    · rw [trialLoopT_succ, checkList_succ, if_pos h]
      constructor
      · intro hcon; exact absurd hcon (by simp)
      · intro hall
        exact absurd (hall _ (List.mem_cons_self _ _)) (by omega)
    · rw [trialLoopT_succ, checkList_succ, if_neg h, ih]
      constructor
      · intro hall v hv
        rcases List.mem_cons.1 hv with rfl | hv2
        · omega
        · exact hall v hv2
      · intro hall v hv
        exact hall v (List.mem_cons_of_mem _ hv)

theorem forall_le_iff_getD (L : List ℕ) (b : ℕ) :
    (∀ v ∈ L, v ≤ b) ↔ ∀ m, m < L.length → L.getD m 0 ≤ b := by
  induction L with
  | nil => simp
  | cons x xs ih =>
    constructor
    · intro h m hm
      cases m with
      | zero => exact h x (List.mem_cons_self _ _)
      | succ m =>
        exact (ih.1 fun v hv => h v (List.mem_cons_of_mem _ hv)) m
          (by simpa using hm)
    · intro h v hv
      rcases List.mem_cons.1 hv with rfl | hv2
      · exact h 0 (by simp)
      · exact (ih.2 fun m hm => h (m + 1) (by simpa using hm)) v hv2

theorem trialLoopT_congr (b : ℕ) (d₁ d₂ : ℕ → ℕ) :
    ∀ (c : ℕ) (s : set_union) (k : ℕ),
      (∀ i, k ≤ i → i < k + c → d₁ i = d₂ i) →
      trialLoopT b d₁ c s k = trialLoopT b d₂ c s k := by
  intro c
  induction c with
  | zero => intro s k _; rfl
  | succ c ih =>
    intro s k h
    have hk : d₁ k = d₂ k := h k le_rfl (by omega)
    rw [trialLoopT_succ, trialLoopT_succ, hk]
    by_cases hcond : b < (union_set s (c + 1) (d₂ k % (c + 2))).size
        (find (union_set s (c + 1) (d₂ k % (c + 2))) (c + 1))
    · rw [if_pos hcond, if_pos hcond]
    · rw [if_neg hcond, if_neg hcond]
      exact ih _ (k + 1) fun i h1 h2 => h i (by omega) (by omega)

/-- C1: the single-trial simulator with prisoner count n and cycle bound b
returns NotFound exactly when some iteration of the descending loop sees
the size of currentIndex's partition strictly exceed b immediately after
its union (and it stops at the first such iteration, every earlier
inspected size being within the bound); it returns Found exactly when
every inspected size stays within the bound. -/
theorem prisoners_C1_outcome_characterization (n b : ℕ) (draws : ℕ → ℕ) :
    (runTrial n b draws = found_t.NOT_FOUND ↔
      ∃ m, m < n - 1 ∧ b < checkVal n draws m ∧ ∀ j, j < m → checkVal n draws j ≤ b)
    ∧ (runTrial n b draws = found_t.FOUND ↔
      ∀ m, m < n - 1 → checkVal n draws m ≤ b) := by
  have hlen : (checkList draws (n - 1) (set_union_init n) 0).length = n - 1 :=
    checkList_length draws _ _ _
  have hfound : runTrial n b draws = found_t.FOUND ↔
      ∀ m, m < n - 1 → checkVal n draws m ≤ b := by
    unfold runTrial checkVal
    rw [trialLoopT_found_iff, forall_le_iff_getD, hlen]
  have hcases : runTrial n b draws = found_t.NOT_FOUND ↔
      ¬ runTrial n b draws = found_t.FOUND := by
    cases h : runTrial n b draws <;> simp
  refine ⟨?_, hfound⟩
  rw [hcases, hfound]
  constructor
  · intro hnot
    push_neg at hnot
    obtain ⟨m, hm, hbm⟩ := hnot
    have hQ : ∃ m, m < n - 1 ∧ b < checkVal n draws m := ⟨m, hm, hbm⟩
    refine ⟨Nat.find hQ, (Nat.find_spec hQ).1, (Nat.find_spec hQ).2, ?_⟩
    intro j hj
    have hjn : j < n - 1 := lt_trans hj (Nat.find_spec hQ).1
    by_contra hcon
    exact Nat.find_min hQ hj ⟨hjn, by omega⟩
  · rintro ⟨m, hm, hbm, _⟩
    push_neg
    exact ⟨m, hm, hbm⟩

/-- C2, counterexample: with n = 5 prisoners and cycle bound b = 5 ≥ n,
the draw sequence 2, 2, 2, ... makes the trial return NotFound (the third
draw repeats randomIndex = currentIndex = 2, and the spec's directed union
with no same-root test doubles that partition's size to 6 > 5), so a bound
of at least n does not force Found. -/
theorem prisoners_C2_counterexample :
    1 ≤ 5 ∧ 5 ≤ 5 ∧ runTrial 5 5 (fun _ => 2) = found_t.NOT_FOUND := by
  refine ⟨by norm_num, by norm_num, by decide⟩

/-- C2, amended: for every n and every cycle bound b ≥ 2*(n-1), and for
every sequence of random draws, the single-trial simulator returns Found
(2*(n-1) bounds every inspected partition size, since a repeated-root
union can at most double the size of a partition of active elements). -/
theorem prisoners_C2_amended_bound (n b : ℕ) (draws : ℕ → ℕ)
    (hb : 2 * (n - 1) ≤ b) : runTrial n b draws = found_t.FOUND := by
  rcases n with _ | m
  · rfl
  · exact trialLoopT_found b (m + 1) draws hb m (set_union_init (m + 1)) 0
      (by omega) (LoopInv_init (m + 1) (by omega))

/-- C2, witness for the amended bound at n = 5, b = 8. -/
theorem prisoners_C2_amended_witness :
    runTrial 5 8 (fun _ => 0) = found_t.FOUND :=
  prisoners_C2_amended_bound 5 8 (fun _ => 0) (by norm_num)

/-- C3: for every n ≥ 2 and cycle bound 0, and every draw sequence, the
trial returns NotFound and stops after exactly one union (one draw
consumed): the first inspected partition size is already at least 2 > 0. -/
theorem prisoners_C3_zero_bound (n : ℕ) (draws : ℕ → ℕ) (hn : 2 ≤ n) :
    runTrial n 0 draws = found_t.NOT_FOUND ∧ runTrialDraws n 0 draws = 1 := by
  obtain ⟨c, rfl⟩ : ∃ c, n = c + 2 := ⟨n - 2, by omega⟩
  have hInv : LoopInv (c + 2) (c + 1) (set_union_init (c + 2)) :=
    LoopInv_init (c + 2) (by omega)
  have hr : draws 0 % (c + 2) ≤ c + 1 :=
    Nat.lt_succ_iff.1 (Nat.mod_lt _ (by omega))
  obtain ⟨h2, -, -⟩ := union_step (c + 2) c (set_union_init (c + 2))
    (draws 0 % (c + 2)) hInv hr (by omega)
  constructor
  · show (trialLoopT 0 draws (c + 1) (set_union_init (c + 2)) 0).1 = found_t.NOT_FOUND
    rw [trialLoopT_succ, if_pos (by omega)]
  · show (trialLoopT 0 draws (c + 1) (set_union_init (c + 2)) 0).2 = 1
    rw [trialLoopT_succ, if_pos (by omega)]

/-- C3, witness at n = 5, b = 0. -/
theorem prisoners_C3_witness :
    runTrial 5 0 (fun _ => 1) = found_t.NOT_FOUND ∧
      runTrialDraws 5 0 (fun _ => 1) = 1 :=
  prisoners_C3_zero_bound 5 (fun _ => 1) (by norm_num)

/-- C4: with a single prisoner the loop body never runs (currentIndex
starts at 0), so the trial returns Found for every cycle bound, performing
no union and consuming no random draw. -/
theorem prisoners_C4_single_prisoner (b : ℕ) (draws : ℕ → ℕ) :
    runTrial 1 b draws = found_t.FOUND ∧ runTrialDraws 1 b draws = 0 :=
  ⟨rfl, rfl⟩

/-- C7: the single-trial simulator is a deterministic function of its
random input: two runs with the same n, same bound, and draw sequences
that agree on the at most n-1 positions the loop can read return the same
outcome (in particular, equal sequences do). -/
theorem prisoners_C7_determinism (n b : ℕ) (d₁ d₂ : ℕ → ℕ)
    (h : ∀ i, i < n - 1 → d₁ i = d₂ i) :
    runTrial n b d₁ = runTrial n b d₂ := by
  unfold runTrial
  rw [trialLoopT_congr b d₁ d₂ (n - 1) (set_union_init n) 0
    (fun i h1 h2 => h i (by omega))]

/-- C7, witness at n = 3: the streams agree on positions 0 and 1, which
are the only ones consulted. -/
theorem prisoners_C7_witness :
    runTrial 3 50 (fun _ => 0) = runTrial 3 50 (fun i => if i < 2 then 0 else 7) :=
  prisoners_C7_determinism 3 50 _ _ (fun i hi => by
    have h2 : i < 2 := hi
    simp [h2])

/-- C5: the statistics reporter computes mean = s/t and
variance = s*(1-mean)/(t-1), which for t > 1 equals the Bernoulli
unbiased estimator t*p*(1-p)/(t-1) with p = mean; at s = 31, t = 100 the
mean is 0.31, the variance is 2139/9900 (about 0.2161), and the 95 percent
interval mean plus or minus 1.96*sqrt(variance/t) is within 0.001 of
[0.2188, 0.4012]. -/
theorem prisoners_C5_statistics :
    (∀ s t : ℕ, 1 < t →
      printStats_var s t
        = (t : ℚ) * printStats_mean s t * (1 - printStats_mean s t) / ((t : ℚ) - 1))
    ∧ printStats_mean 31 100 = 31 / 100
    ∧ printStats_var 31 100 = 2139 / 9900
    ∧ |printStats_var 31 100 - 0.2161| ≤ 1 / 1000
    ∧ |((printStats_mean 31 100 : ℚ) : ℝ)
        - 1.96 * Real.sqrt (((printStats_var 31 100 : ℚ) : ℝ) / 100) - 0.2188| ≤ 1 / 1000
    ∧ |((printStats_mean 31 100 : ℚ) : ℝ)
        + 1.96 * Real.sqrt (((printStats_var 31 100 : ℚ) : ℝ) / 100) - 0.4012| ≤ 1 / 1000 := by
  have hmean : printStats_mean 31 100 = 31 / 100 := by
    unfold printStats_mean; norm_num
  have hvar : printStats_var 31 100 = 2139 / 9900 := by
    unfold printStats_var printStats_mean; norm_num
  have hcast : ((printStats_var 31 100 : ℚ) : ℝ) / 100 = 2139 / 990000 := by
    rw [hvar]; push_cast; norm_num
  have hmcast : ((printStats_mean 31 100 : ℚ) : ℝ) = 31 / 100 := by
    rw [hmean]; push_cast; norm_num
  have hs0 : 0 ≤ Real.sqrt (2139 / 990000) := Real.sqrt_nonneg _
  have hs2 : Real.sqrt (2139 / 990000) ^ 2 = 2139 / 990000 :=
    Real.sq_sqrt (by norm_num)
  have hup : Real.sqrt (2139 / 990000) ≤ 0.0466 := by
    nlinarith [hs2, hs0, sq_nonneg (Real.sqrt (2139 / 990000) - 0.0465)]
  have hlo : (0.0461 : ℝ) ≤ Real.sqrt (2139 / 990000) := by
    nlinarith [hs2, hs0]
  refine ⟨?_, hmean, hvar, ?_, ?_, ?_⟩
  · intro s t ht
    have ht0 : (t : ℚ) ≠ 0 := Nat.cast_ne_zero.2 (by omega)
    unfold printStats_var printStats_mean
    have h1 : (t : ℚ) * ((s : ℚ) / (t : ℚ)) = (s : ℚ) := by field_simp
    rw [h1]
  · rw [hvar, abs_le]; constructor <;> norm_num
  · rw [hcast, hmcast, abs_le]; constructor <;> nlinarith [hup, hlo]
  · rw [hcast, hmcast, abs_le]; constructor <;> nlinarith [hup, hlo]

/-- C5, witness for the Bernoulli-estimator identity at s = 31, t = 100. -/
theorem prisoners_C5_witness :
    printStats_var 31 100
      = ((100 : ℕ) : ℚ) * printStats_mean 31 100 * (1 - printStats_mean 31 100)
          / (((100 : ℕ) : ℚ) - 1) :=
  prisoners_C5_statistics.1 31 100 (by norm_num)

/-- C6: splitting n requested trials over w workers gives every worker
exactly n / w trials (integer division) and a reported total of
(n / w) * w, so the total trial work performed, the sum of the per-worker
counts, is also (n / w) * w; with 3 workers on 10 requested trials the
reported and performed count is 9, strictly fewer than the 10 requested
(the remainder is silently dropped), identically for the thread and the
process fan-out. -/
theorem prisoners_C6_worker_split (n w : ℕ) (streams : ℕ → ℕ → ℕ) :
    simulateAndStatsWithThreads n w streams
        = (∑ i ∈ Finset.range w, splitSimulation (n / w) (streams i), (n / w) * w)
    ∧ simulateAndStatsWithProcesses n w streams
        = (∑ i ∈ Finset.range w, splitSimulation (n / w) (streams i), (n / w) * w)
    ∧ (∑ _i ∈ Finset.range w, n / w) = (n / w) * w
    ∧ (simulateAndStatsWithThreads 10 3 streams).2 = 9
    ∧ (simulateAndStatsWithProcesses 10 3 streams).2 = 9
    ∧ (simulateAndStatsWithThreads 10 3 streams).2 < 10 := by
  refine ⟨rfl, rfl, ?_, rfl, rfl, ?_⟩
  · rw [Finset.sum_const, Finset.card_range, smul_eq_mul, Nat.mul_comm]
  · show (10 / 3) * 3 < 10
    norm_num

/-- C8, counterexample: the argument vector [simuBestop, 5, seq] matches
none of the three accepted forms (its third argument is not exactly "s",
"t" or "p"), yet main does not print usage and does enter the sequential
simulation path, because the dispatch tests only the first character of
argv[2]; the exit status is still EXIT_SUCCESS. -/
theorem prisoners_C8_counterexample :
    acceptedForm ["simuBestop", "5", "seq"] = false
    ∧ (mainProgram ["simuBestop", "5", "seq"]).usagePrinted = false
    ∧ (mainProgram ["simuBestop", "5", "seq"]).simAttempted = true
    ∧ (mainProgram ["simuBestop", "5", "seq"]).exitCode = EXIT_SUCCESS := by
  refine ⟨by decide, by decide, by decide, by decide⟩

/-- C8, amended: main dispatches on the argument count and the first
character of the third argument only; every argument vector whose count is
not 3 or 4, or whose third argument does not start with the letter s
(count 3) respectively p or t (count 4), gets the usage message and no
simulation attempt, and every argument vector whatsoever exits with
success status EXIT_SUCCESS. -/
theorem prisoners_C8_amended (args : List String) :
    (mainProgram args).exitCode = EXIT_SUCCESS
    ∧ (¬ dispatchAccepts args →
        (mainProgram args).usagePrinted = true
          ∧ (mainProgram args).simAttempted = false) := by
  unfold mainProgram dispatchAccepts
  by_cases h3 : args.length = 3
  · rw [if_pos h3]
    by_cases hs : (args.getD 2 "").data.head? = some 's'
    · rw [if_pos hs]
      exact ⟨rfl, fun hcon => absurd (Or.inl ⟨h3, hs⟩) hcon⟩
    · rw [if_neg hs]
      exact ⟨rfl, fun _ => ⟨rfl, rfl⟩⟩
  · rw [if_neg h3]
    by_cases h4 : args.length = 4
    · rw [if_pos h4]
      by_cases hp : (args.getD 2 "").data.head? = some 'p'
      · rw [if_pos hp]
        exact ⟨rfl, fun hcon => absurd (Or.inr ⟨h4, Or.inl hp⟩) hcon⟩
      · rw [if_neg hp]
        by_cases ht : (args.getD 2 "").data.head? = some 't'
        · rw [if_pos ht]
          exact ⟨rfl, fun hcon => absurd (Or.inr ⟨h4, Or.inr ht⟩) hcon⟩
        · rw [if_neg ht]
          exact ⟨rfl, fun _ => ⟨rfl, rfl⟩⟩
    · rw [if_neg h4]
      exact ⟨rfl, fun _ => ⟨rfl, rfl⟩⟩

/-- C8, witness for the amended claim at the one-element argument vector. -/
theorem prisoners_C8_amended_witness :
    (mainProgram ["x"]).exitCode = EXIT_SUCCESS
    ∧ ((mainProgram ["x"]).usagePrinted = true
        ∧ (mainProgram ["x"]).simAttempted = false) :=
  ⟨(prisoners_C8_amended ["x"]).1, (prisoners_C8_amended ["x"]).2 (by decide)⟩

/-- C9: if the entropy source cannot be opened or cannot be read, the
aggregator terminates at once with the failure exit status, with no retry
and no fallback seed; otherwise seeding happens exactly once per
aggregator invocation, before any trial runs: the whole trial loop
consumes the single stream determined by the one seed value read. -/
theorem prisoners_C9_entropy_failure (env : EntropySource) (rng : ℕ → ℕ → ℕ) (n : ℕ) :
    ((env = EntropySource.unavailable ∨ env = EntropySource.unreadable) →
      simulateAndStats env rng n = Except.error EXIT_FAILURE)
    ∧ (∀ v, env = EntropySource.value v →
      simulateAndStats env rng n = Except.ok (simLoop (rng v) n 0).1) := by
  constructor
  · rintro (rfl | rfl) <;> rfl
  · rintro v rfl; rfl

/-- C9, witness: a failing source aborts with the failure status, and a
successful read of the value 7 runs all trials on the stream seeded by 7. -/
theorem prisoners_C9_witness :
    simulateAndStats EntropySource.unavailable (fun _ _ => 0) 3
        = Except.error EXIT_FAILURE
    ∧ simulateAndStats (EntropySource.value 7) (fun _ _ => 0) 3
        = Except.ok (simLoop ((fun _ _ => 0 : ℕ → ℕ → ℕ) 7) 3 0).1 :=
  ⟨(prisoners_C9_entropy_failure _ _ _).1 (Or.inl rfl),
   (prisoners_C9_entropy_failure _ _ _).2 7 rfl⟩

/-- C10: the prisoner count and the bound are compile-time constants, not
runtime-configurable: DEFAULT_NUM_PRISONERS is 100 and MAX_TRIALS is 50,
runSimulation is exactly the generalized simulator instantiated at those
constants, randomizeArray always builds the disjoint-set structure with
DEFAULT_NUM_PRISONERS elements regardless of its size parameter and always
checks against MAX_TRIALS, and that structure has 100 elements. -/
theorem prisoners_C10_constants :
    DEFAULT_NUM_PRISONERS = 100
    ∧ MAX_TRIALS = 50
    ∧ (∀ draws : ℕ → ℕ,
        runSimulation draws = runTrial DEFAULT_NUM_PRISONERS MAX_TRIALS draws)
    ∧ (∀ (size : ℕ) (draws : ℕ → ℕ),
        randomizeArray size draws
          = (trialLoopT MAX_TRIALS draws (size - 1)
              (set_union_init DEFAULT_NUM_PRISONERS) 0).1)
    ∧ (∀ (draws : ℕ → ℕ) (k : ℕ),
        runSimulationT draws k
          = trialLoopT MAX_TRIALS draws (DEFAULT_NUM_PRISONERS - 1)
              (set_union_init DEFAULT_NUM_PRISONERS) k)
    ∧ (set_union_init DEFAULT_NUM_PRISONERS).nElems = 100 :=
  ⟨rfl, rfl, fun _ => rfl, fun _ _ => rfl, fun _ _ => rfl, rfl⟩
